import Mathlib

/-!
Inventory editor (`backend/static/app.js`): shallow embedding and verified properties

The browser script is embedded as pure Lean functions.

* JavaScript strings are modelled by `String` (sequences of Unicode scalar values);
  strings holding unpaired surrogates are outside the model.
* JavaScript numbers are modelled by `JSNumber`: `NaN`, the two infinities, or a finite
  binary64 value, named by the rational it denotes. `Number` rounds the value of a
  literal to the nearest binary64 value, ties to even, with overflow to an infinity and
  underflow to zero. The two zeros are identified; `JSON.stringify` writes both as `0`.
  The step sizes that `getStepForUnit` returns are kept as the decimal literals of the
  source.
* The page state the script reads and writes (the three "new item" controls, the table
  body, the alerts shown, the requests issued through `fetch`) is the record `Page`;
  every operation is a function `Page → Page` relative to an environment that answers
  each request.
* A request body is kept as the JSON document it denotes, a URL as its text. A parsed
  response is kept as the members of its JSON object in the order of the text, each an
  item or `null`; a response whose JSON value is not an object is outside the model.
* Of the DOM, the model keeps what the script relies on: a text input drops line feeds
  and carriage returns from an assigned value, a number input holds the empty string or
  a valid floating-point number, a selector without a marked option shows its first
  option.
* The inventory server is not part of the script; the model of it used for the rename
  property follows the REST contract of the specification.
-/

namespace InventoryApp

/-! ## ECMAScript built-ins used by the script -/

/-- A JavaScript number value. -/
inductive JSNumber where
  | NaN
  | posInfinity
  | negInfinity
  | finite (v : ℚ)
  deriving DecidableEq

/-- Code points of the ECMAScript productions `WhiteSpace` and `LineTerminator`: the set
stripped by `String.prototype.trim` and skipped around a numeric literal by `Number`. -/
def isWhiteSpace (c : Char) : Bool :=
  let n := c.toNat
  n == 0x09 || n == 0x0A || n == 0x0B || n == 0x0C || n == 0x0D || n == 0x20 ||
  n == 0xA0 || n == 0x1680 || (0x2000 ≤ n && n ≤ 0x200A) || n == 0x2028 || n == 0x2029 ||
  n == 0x202F || n == 0x205F || n == 0x3000 || n == 0xFEFF

/-- The list form of `String.prototype.trim`: white space removed from both ends. -/
def trimChars (cs : List Char) : List Char :=
  (cs.dropWhile isWhiteSpace).rdropWhile isWhiteSpace

/-- Embeds `String.prototype.trim`. -/
def trim (s : String) : String := String.mk (trimChars s.data)

/-- Value of one digit character (decimal or hexadecimal, either case). -/
def digitValue (c : Char) : Option Nat :=
  let n := c.toNat
  if 48 ≤ n ∧ n ≤ 57 then some (n - 48)
  else if 97 ≤ n ∧ n ≤ 102 then some (n - 87)
  else if 65 ≤ n ∧ n ≤ 70 then some (n - 55)
  else none

/-- One step of reading a digit sequence in the given base. -/
def digitStep (base : Nat) (acc : Option Nat) (c : Char) : Option Nat :=
  match acc, digitValue c with
  | some a, some d => if d < base then some (a * base + d) else none
  | _, _ => none

/-- Reads a non-empty digit sequence in the given base; `none` when the sequence is empty
or holds a character that is not a digit of that base. -/
def readDigits (base : Nat) (cs : List Char) : Option Nat :=
  match cs with
  | [] => none
  | _ :: _ => cs.foldl (digitStep base) (some 0)

/-- The quotient `n / d` rounded to the nearest integer, a tie going to the even
neighbour. -/
def divRoundHalfEven (n d : Nat) : Nat :=
  let q := n / d
  let r := n % d
  if 2 * r < d then q
  else if d < 2 * r then q + 1
  else if q % 2 = 0 then q else q + 1

/-- Number of halvings that take `n` to zero, bounded by the first argument. -/
def bitLengthAux : Nat → Nat → Nat
  | 0, _ => 0
  | fuel + 1, n => if n = 0 then 0 else bitLengthAux fuel (n / 2) + 1

/-- The number of binary digits of `n`. -/
def bitLength (n : Nat) : Nat := bitLengthAux n n

/-- The integer `k` with `2 ^ k ≤ n / d < 2 ^ (k + 1)`, for positive `n` and `d`. -/
def floorLog2Ratio (n d : Nat) : Int :=
  let k : Int := (bitLength n : Int) - (bitLength d : Int)
  if d * 2 ^ k.toNat ≤ n * 2 ^ (-k).toNat then k else k - 1

/-- The binary64 value nearest to the non-negative rational `n / d` (ties to even), or
`none` when that value is beyond the largest finite binary64 number. The significand has
53 bits and the exponent of its last bit is at least `-1074`. -/
def binary64Magnitude (n d : Nat) : Option ℚ :=
  if n = 0 then some 0
  else
    let e : Int := max (floorLog2Ratio n d - 52) (-1074)
    let m := divRoundHalfEven (n * 2 ^ (-e).toNat) (d * 2 ^ e.toNat)
    if 2 ^ 1024 ≤ m * 2 ^ e.toNat then none
    else some (((m * 2 ^ e.toNat : Nat) : ℚ) / ((2 ^ (-e).toNat : Nat) : ℚ))

/-- The Number value for the mathematical value `± n / d`: the nearest binary64 value,
an infinity on overflow. The exact value is rounded, as the engines do; the licence of
the standard to first cut a literal of more than 20 significant digits is not used. -/
def toBinary64 (negative : Bool) (n d : Nat) : JSNumber :=
  match binary64Magnitude n d with
  | none => if negative then .negInfinity else .posInfinity
  | some v => .finite (if negative then -v else v)

/-- The production `ExponentPart` applied to mantissa digits worth `m` with `k` of them
after the decimal point: the remaining text is empty, or `e`/`E`, an optional sign and
decimal digits. The result is the mathematical value as numerator and denominator. -/
def parseExponent (m k : Nat) (rest : List Char) : Option (Nat × Nat) :=
  match rest with
  | [] => some (m, 10 ^ k)
  | c :: t =>
    if c = 'e' ∨ c = 'E' then
      match t with
      | '+' :: ds => (readDigits 10 ds).map fun x => (m * 10 ^ x, 10 ^ k)
      | '-' :: ds => (readDigits 10 ds).map fun x => (m, 10 ^ (k + x))
      | ds => (readDigits 10 ds).map fun x => (m * 10 ^ x, 10 ^ k)
    else none

/-- The production `StrUnsignedDecimalLiteral` without `Infinity`: digits, an optional
point with optional digits, an optional exponent; at least one mantissa digit. The
result is the mathematical value as numerator and denominator. -/
def parseUnsignedDecimal (cs : List Char) : Option (Nat × Nat) :=
  let ip := cs.takeWhile Char.isDigit
  let r1 := cs.dropWhile Char.isDigit
  match r1 with
  | '.' :: t =>
    let fp := t.takeWhile Char.isDigit
    match readDigits 10 (ip ++ fp) with
    | some m => parseExponent m fp.length (t.dropWhile Char.isDigit)
    | none => none
  | _ =>
    match readDigits 10 ip with
    | some m => parseExponent m 0 r1
    | none => none

/-- The production `StrNumericLiteral` on text without surrounding white space: a
binary, octal or hexadecimal integer, or an optionally signed decimal literal or
`Infinity`; the value is rounded to binary64. `none` when the text does not match the
grammar. -/
def parseStrNumericLiteral (cs : List Char) : Option JSNumber :=
  match cs with
  | '0' :: 'b' :: ds | '0' :: 'B' :: ds => (readDigits 2 ds).map fun n => toBinary64 false n 1
  | '0' :: 'o' :: ds | '0' :: 'O' :: ds => (readDigits 8 ds).map fun n => toBinary64 false n 1
  | '0' :: 'x' :: ds | '0' :: 'X' :: ds => (readDigits 16 ds).map fun n => toBinary64 false n 1
  | '-' :: ds =>
    if ds = "Infinity".data then some .negInfinity
    else (parseUnsignedDecimal ds).map fun v => toBinary64 true v.1 v.2
  | '+' :: ds =>
    if ds = "Infinity".data then some .posInfinity
    else (parseUnsignedDecimal ds).map fun v => toBinary64 false v.1 v.2
  | ds =>
    if ds = "Infinity".data then some .posInfinity
    else (parseUnsignedDecimal ds).map fun v => toBinary64 false v.1 v.2

/-- Embeds `Number(s)` on a string (the abstract operation `StringToNumber`): white space
is stripped from both ends, the empty text is `0`, a numeric literal is its value rounded
to binary64, any other text is `NaN`. -/
def Number (s : String) : JSNumber :=
  match trimChars s.data with
  | [] => .finite 0
  | c :: cs => (parseStrNumericLiteral (c :: cs)).getD .NaN

/-! ## `getStepForUnit`, `STANDARD_UNITS`, `fillUnitSelect` -/

/-- Embeds `const API = "/api/inventory"`. -/
def API : String := "/api/inventory"

/-- Embeds `STANDARD_UNITS`. -/
def STANDARD_UNITS : List String :=
  ["pcs", "cup", "tbsp", "tsp", "g", "kg", "ml", "L", "oz", "lbs", "cloves", "slices", ""]

/-- Embeds `getStepForUnit`: a `switch` on the unit with strict equality. -/
def getStepForUnit (unit : String) : ℚ :=
  match unit with
  | "pcs" => 1
  | "cloves" => 1
  | "slices" => 1
  | "cup" => 0.25
  | "tbsp" => 0.5
  | "tsp" => 0.25
  | "g" => 10
  | "ml" => 10
  | "kg" => 0.1
  | "L" => 0.1
  | "oz" => 0.5
  | "lbs" => 0.25
  | _ => 0.1

/-- The `case` labels of the `switch` in `getStepForUnit`, in source order, each with the
value its branch returns. -/
def stepCases : List (String × ℚ) :=
  [("pcs", 1), ("cloves", 1), ("slices", 1), ("cup", 0.25), ("tbsp", 0.5), ("tsp", 0.25),
   ("g", 10), ("ml", 10), ("kg", 0.1), ("L", 0.1), ("oz", 0.5), ("lbs", 0.25)]

/-- An `<option>` element: its `value` attribute, whether it carries the `selected`
attribute, and its text. -/
structure OptionEl where
  value : String
  selected : Bool
  text : String
  deriving DecidableEq

/-- The `value` of a `<select>` with the given options: the value of the last option
marked selected, and of the first option when none is marked. -/
def selectValue (opts : List OptionEl) : String :=
  match (opts.filter fun o => o.selected).getLast? with
  | some o => o.value
  | none =>
    match opts with
    | [] => ""
    | o :: _ => o.value

/-- Embeds `fillUnitSelect`: the children that the assignment to `select.innerHTML`
creates, one `<option value="u" [selected]>u</option>` per standard unit, with `selected`
exactly on `u === unit`. -/
def fillUnitSelect (unit : String) : List OptionEl :=
  STANDARD_UNITS.map fun u => { value := u, selected := decide (u = unit), text := u }

/-! ## Requests, responses and the page state -/

/-- The object literal `{ name, quantity, unit }` handed to `JSON.stringify`. -/
structure Payload where
  name : String
  quantity : JSNumber
  unit : String
  deriving DecidableEq

/-- The JSON document `{"name": .., "quantity": .., "unit": ..}` carried by a request
body; `quantity := none` is the JSON value `null`. -/
structure JSONBody where
  name : String
  quantity : Option ℚ
  unit : String
  deriving DecidableEq

/-- How `JSON.stringify` serialises a number: a finite number as itself, `NaN` and the
infinities as `null`. -/
def jsonNumber : JSNumber → Option ℚ
  | .finite v => some v
  | .NaN => none
  | .posInfinity => none
  | .negInfinity => none

/-- Embeds `JSON.stringify` on a payload object. -/
def JSON_stringify (p : Payload) : JSONBody :=
  { name := p.name, quantity := jsonNumber p.quantity, unit := p.unit }

/-- A call of `fetch`: method (`GET` when the call gives none), URL, headers and body. -/
structure Request where
  method : String
  url : String
  headers : List (String × String)
  body : Option JSONBody
  deriving DecidableEq

/-- An inventory entry as the client reads it: `quantity := none` when the property is
`null` or absent, `unit := none` when it is absent. -/
structure InventoryItem where
  quantity : Option ℚ
  unit : Option String
  deriving DecidableEq

/-- The members of the JSON object of a response, in the order of the text: a name and
either an item or `null` (`none`). -/
abbrev Members := List (String × Option InventoryItem)

/-- A response: its status, and the JSON object that `res.json()` reads (`none` when the
body is not parseable and the promise rejects). -/
structure Response where
  status : Nat
  json : Option Members
  deriving DecidableEq

/-- The environment of the script: given the requests issued so far and a new request,
the response `fetch` resolves to, or `none` when `fetch` rejects. -/
abbrev Network := List Request → Request → Option Response

/-- One table row as `renderRow` builds it: the value the name input shows, the value
assigned to the quantity input (`none` is the empty string), the `step` of the quantity
input, the options of the unit selector, the value the unit selector shows, and the name
captured by the Save and Delete handlers. -/
structure Row where
  nameInp : String
  qtyInp : Option ℚ
  qtyStep : ℚ
  unitSel : List OptionEl
  unitSelValue : String
  key : String
  deriving DecidableEq

/-- The state the script reads and writes: the values of `#new-name`, `#new-qty` (and its
`step`) and `#new-unit`, the children of `#inventory-body`, the alerts shown and the
requests issued, oldest first. -/
structure Page where
  newName : String
  newQty : String
  newQtyStep : ℚ
  newUnit : String
  body : List Row
  alerts : List String
  requests : List Request

/-- The expression `a || b` on strings: `b` when `a` is the empty string, else `a`. -/
def strOr (a b : String) : String := if a = "" then b else a

/-- The value a text input holds after the assignment of a string: the string without
its line feeds and carriage returns. -/
def textInputValue (s : String) : String :=
  String.mk (s.data.filter fun c => !(c.toNat == 10 || c.toNat == 13))

/-- A non-empty run of decimal digits. -/
def isDigits (cs : List Char) : Bool := !cs.isEmpty && cs.all Char.isDigit

/-- The exponent part of a valid floating-point number of HTML: nothing, or `e`/`E`, an
optional sign and digits. -/
def isFloatExponent (cs : List Char) : Bool :=
  match cs with
  | [] => true
  | c :: t =>
    (c == 'e' || c == 'E') &&
      (match t with
       | '+' :: ds => isDigits ds
       | '-' :: ds => isDigits ds
       | ds => isDigits ds)

/-- The unsigned part of a valid floating-point number of HTML: digits, or optional
digits followed by a point and digits, then an optional exponent. -/
def isUnsignedFloat (cs : List Char) : Bool :=
  match cs.dropWhile Char.isDigit with
  | '.' :: t =>
    !(t.takeWhile Char.isDigit).isEmpty && isFloatExponent (t.dropWhile Char.isDigit)
  | rest => !(cs.takeWhile Char.isDigit).isEmpty && isFloatExponent rest

/-- Whether a text is a valid floating-point number of HTML. -/
def isValidFloat (cs : List Char) : Bool :=
  match cs with
  | '-' :: t => isUnsignedFloat t
  | _ => isUnsignedFloat cs

/-- The `value` of an `<input type="number">` (value sanitization): the text when it is a
valid floating-point number, the empty string otherwise. The quantity input of a row is
of this type, and its value is what the Save handler passes to `updateItem`. -/
def numberInputValue (s : String) : String :=
  if isValidFloat s.data then s else ""

/-- Embeds a call of `fetch`: the request is recorded and the environment answers. -/
def fetch (net : Network) (req : Request) (p : Page) : Option Response × Page :=
  (net p.requests req, { p with requests := p.requests ++ [req] })

/-! ## `encodeURIComponent` -/

/-- Characters that `encodeURIComponent` leaves as they are: ASCII letters, digits and
`- _ . ! ~ * ' ( )`. -/
def uriUnreserved (c : Char) : Bool :=
  let n := c.toNat
  (65 ≤ n && n ≤ 90) || (97 ≤ n && n ≤ 122) || (48 ≤ n && n ≤ 57) ||
  n == 45 || n == 95 || n == 46 || n == 33 || n == 126 || n == 42 || n == 39 ||
  n == 40 || n == 41

/-- The UTF-8 encoding of a code point. -/
def utf8Bytes (n : Nat) : List Nat :=
  if n < 0x80 then [n]
  else if n < 0x800 then [0xC0 + n / 64, 0x80 + n % 64]
  else if n < 0x10000 then [0xE0 + n / 4096, 0x80 + n / 64 % 64, 0x80 + n % 64]
  else [0xF0 + n / 262144, 0x80 + n / 4096 % 64, 0x80 + n / 64 % 64, 0x80 + n % 64]

/-- Upper-case hexadecimal digit of a value below 16. -/
def hexDigit (n : Nat) : Char :=
  if n < 10 then Char.ofNat (48 + n) else Char.ofNat (55 + n)

/-- The escape `%XX` of one byte. -/
def pctByte (b : Nat) : List Char := ['%', hexDigit (b / 16), hexDigit (b % 16)]

/-- The encoding of one character by `encodeURIComponent`. -/
def encodeChar (c : Char) : List Char :=
  if uriUnreserved c then [c] else (utf8Bytes c.toNat).flatMap pctByte

/-- Embeds `encodeURIComponent`. -/
def encodeURIComponent (s : String) : String := String.mk (s.data.flatMap encodeChar)

/-! ## The operations of the script -/

/-- The request of `fetch(API)`. -/
def listRequest : Request :=
  { method := "GET", url := API, headers := [], body := none }

/-- The array index a property name denotes: a decimal numeral without a leading zero
(except `0` itself) below `2 ^ 32 - 1`. -/
def arrayIndex (s : String) : Option Nat :=
  match s.data with
  | [] => none
  | c :: cs =>
    if c = '0' ∧ cs ≠ [] then none
    else
      match readDigits 10 (c :: cs) with
      | some n => if n < 4294967295 then some n else none
      | none => none

/-- Defines a property of an object: an existing property of that name keeps its place
and takes the new value, a new property is added at the end. -/
def setProperty (obj : Members) (k : String) (v : Option InventoryItem) : Members :=
  if obj.any (fun e => e.1 = k) then obj.map (fun e => if e.1 = k then (k, v) else e)
  else obj ++ [(k, v)]

/-- The object that `res.json()` builds from the members of the JSON text, as the list of
its properties in creation order. -/
def JSON_parse (members : Members) : Members :=
  members.foldl (fun obj m => setProperty obj m.1 m.2) []

/-- The array index of the name of a property (`0` when the name is not one). -/
def indexOf (e : String × Option InventoryItem) : Nat := (arrayIndex e.1).getD 0

/-- Embeds `Object.entries` on an object given by its properties in creation order:
first the properties whose names are array indices, in ascending order of the index,
then the other properties in creation order. -/
def Object_entries (obj : Members) : Members :=
  (obj.filter fun e => (arrayIndex e.1).isSome).insertionSort (fun a b => indexOf a ≤ indexOf b)
    ++ obj.filter fun e => !(arrayIndex e.1).isSome

/-- The row that `renderRow(name, item)` builds. -/
def mkRow (name : String) (item : InventoryItem) : Row :=
  { nameInp := textInputValue name
    qtyInp := item.quantity
    qtyStep := getStepForUnit (strOr (item.unit.getD "") "")
    unitSel := fillUnitSelect (strOr (item.unit.getD "") "")
    unitSelValue := selectValue (fillUnitSelect (strOr (item.unit.getD "") ""))
    key := name }

/-- Embeds `renderRow`: the new row is appended to the table body. For an item that is
`null` the read of `item.quantity` throws before anything is appended (`none`). -/
def renderRow (name : String) (item : Option InventoryItem) (p : Page) : Option Page :=
  match item with
  | none => none
  | some it => some { p with body := p.body ++ [mkRow name it] }

/-- Embeds `entries.forEach(([name, item]) => renderRow(name, item))`: the rows are
rendered in order, and an exception thrown by `renderRow` abandons the remaining
entries. -/
def forEachRender : Members → Page → Page
  | [], p => p
  | e :: rest, p =>
    match renderRow e.1 e.2 p with
    | none => p
    | some p2 => forEachRender rest p2

/-- Embeds `refresh`: `GET` the inventory; when the response arrives and parses, empty
the table body and render one row per entry of `Object.entries(data)`. A rejected
`fetch` or an unparseable body leaves the table as it was. -/
def refresh (net : Network) (p : Page) : Page :=
  match fetch net listRequest p with
  | (none, p1) => p1
  | (some res, p1) =>
    match res.json with
    | none => p1
    | some members => forEachRender (Object_entries (JSON_parse members)) { p1 with body := [] }

/-- The payload that `addItem` builds from the three controls. -/
def addItemPayload (p : Page) : Payload :=
  let name := trim p.newName
  let rawQty := trim p.newQty
  let qty := if rawQty = "" then JSNumber.finite 1 else Number rawQty
  let unit := strOr p.newUnit ""
  { name := name, quantity := qty, unit := unit }

/-- The request that `addItem` sends. -/
def addItemRequest (p : Page) : Request :=
  { method := "POST", url := API, headers := [("Content-Type", "application/json")],
    body := some (JSON_stringify (addItemPayload p)) }

/-- Embeds `addItem`. -/
def addItem (net : Network) (p : Page) : Page :=
  if (addItemPayload p).name = "" then
    { p with alerts := p.alerts ++ ["Name required"] }
  else
    match fetch net (addItemRequest p) p with
    | (none, p1) => p1
    | (some _, p1) =>
      refresh net { p1 with newName := "", newQty := "",
                            newQtyStep := getStepForUnit (strOr p1.newUnit "") }

/-- The object `payload` built by `updateItem`. -/
def updateItemPayload (oldName newName qty unit : String) : Payload :=
  { name := trim (strOr newName oldName)
    quantity := if qty = "" then JSNumber.finite 1 else Number qty
    unit := strOr unit "" }

/-- The request that `updateItem` sends. -/
def updateItemRequest (oldName newName qty unit : String) : Request :=
  { method := "PUT", url := API ++ "/" ++ encodeURIComponent oldName,
    headers := [("Content-Type", "application/json")],
    body := some (JSON_stringify (updateItemPayload oldName newName qty unit)) }

/-- Embeds `updateItem`. -/
def updateItem (net : Network) (oldName newName qty unit : String) (p : Page) : Page :=
  match fetch net (updateItemRequest oldName newName qty unit) p with
  | (none, p1) => p1
  | (some _, p1) => refresh net p1

/-- Embeds the Save handler of a row, `() => updateItem(name, nameInp.value,
qtyInp.value, unitSel.value)`: `name` is the name the row was rendered for, and the three
values are those the controls hold at the click, given by the texts last put into the
name input and the quantity input and by the value the selector shows. -/
def saveRow (net : Network) (r : Row) (nameText qtyText unitShown : String) (p : Page) :
    Page :=
  updateItem net r.key (textInputValue nameText) (numberInputValue qtyText) unitShown p

/-- The request that `deleteItem` sends. -/
def deleteItemRequest (name : String) : Request :=
  { method := "DELETE", url := API ++ "/" ++ encodeURIComponent name, headers := [],
    body := none }

/-- Embeds `deleteItem`. -/
def deleteItem (net : Network) (name : String) (p : Page) : Page :=
  match fetch net (deleteItemRequest name) p with
  | (none, p1) => p1
  | (some _, p1) => refresh net p1

/-- The request that `resetInventory` sends. -/
def resetRequest : Request :=
  { method := "POST", url := API ++ "/reset", headers := [], body := none }

/-- Embeds `resetInventory`. -/
def resetInventory (net : Network) (p : Page) : Page :=
  match fetch net resetRequest p with
  | (none, p1) => p1
  | (some _, p1) => refresh net p1

/-- The requests issued between two page states. -/
def issued (before after : Page) : List Request :=
  after.requests.drop before.requests.length

/-! ## The inventory server -/

/-- Reads one escape `%XX` from the front of a text: the byte and the remaining text. -/
def readByte : List Char → Option (Nat × List Char)
  | '%' :: a :: b :: rest =>
    match digitValue a, digitValue b with
    | some x, some y => some (16 * x + y, rest)
    | _, _ => none
  | _ => none

/-- Reads the given number of escapes `%XX`. -/
def readBytes : Nat → List Char → Option (List Nat × List Char)
  | 0, cs => some ([], cs)
  | n + 1, cs =>
    match readByte cs with
    | none => none
    | some (b, r) =>
      match readBytes n r with
      | none => none
      | some (bs, r2) => some (b :: bs, r2)

/-- Whether a byte is a UTF-8 continuation byte. -/
def isCont (b : Nat) : Bool := 0x80 ≤ b && b < 0xC0

/-- Length of the UTF-8 sequence announced by its first byte. -/
def seqLength (b0 : Nat) : Nat :=
  if b0 < 0xC0 then 1 else if b0 < 0xE0 then 2 else if b0 < 0xF0 then 3 else 4

/-- The code point of a complete UTF-8 sequence. -/
def utf8Value : List Nat → Option Nat
  | [b0] => if b0 < 0x80 then some b0 else none
  | [b0, b1] =>
    if 0xC0 ≤ b0 ∧ b0 < 0xE0 ∧ isCont b1 then some ((b0 - 0xC0) * 64 + (b1 - 0x80))
    else none
  | [b0, b1, b2] =>
    if 0xE0 ≤ b0 ∧ b0 < 0xF0 ∧ isCont b1 ∧ isCont b2 then
      some ((b0 - 0xE0) * 4096 + (b1 - 0x80) * 64 + (b2 - 0x80))
    else none
  | [b0, b1, b2, b3] =>
    if 0xF0 ≤ b0 ∧ b0 < 0xF8 ∧ isCont b1 ∧ isCont b2 ∧ isCont b3 then
      some ((b0 - 0xF0) * 262144 + (b1 - 0x80) * 4096 + (b2 - 0x80) * 64 + (b3 - 0x80))
    else none
  | _ => none

/-- Decodes one character from the front of a percent-encoded text: a character other
than `%` stands for itself, a run of escapes is the UTF-8 encoding of one character. -/
def decodeOne : List Char → Option (Char × List Char)
  | [] => none
  | c :: rest =>
    if c = '%' then
      match readByte (c :: rest) with
      | none => none
      | some (b0, r0) =>
        match readBytes (seqLength b0 - 1) r0 with
        | none => none
        | some (bs, r1) => (utf8Value (b0 :: bs)).map fun v => (Char.ofNat v, r1)
    else some (c, rest)

/-- Decodes a percent-encoded text character by character; the first argument bounds the
number of characters and is taken as the length of the text. -/
def decodeLoop : Nat → List Char → Option (List Char)
  | _, [] => some []
  | 0, _ :: _ => none
  | n + 1, c :: cs =>
    match decodeOne (c :: cs) with
    | none => none
    | some (d, rest) => (decodeLoop n rest).map fun ds => d :: ds

/-- Modelled from the spec: the server's reading of the path segment `{urlEncodedName}`
(section 6), the inverse of the client's URL-encoding; the server is not part of the
client source. `none` when the text is not a percent-encoded UTF-8 string. -/
def decodePathSegment (cs : List Char) : Option String :=
  (decodeLoop cs.length cs).map String.mk

/-- Removes a leading text; `none` when the text does not start with it. -/
def stripLeading : List Char → List Char → Option (List Char)
  | [], cs => some cs
  | _ :: _, [] => none
  | a :: as, c :: cs => if a = c then stripLeading as cs else none

/-- Modelled from the spec: the item name addressed by a URL of the form
`/api/inventory/{urlEncodedName}` (section 6). -/
def pathName (url : String) : Option String :=
  match stripLeading (API ++ "/").data url.data with
  | none => none
  | some seg => decodePathSegment seg

/-- The inventory of the server: a list of named items. -/
abbrev Inventory := List (String × InventoryItem)

/-- The entry stored under a name, if any. -/
def getKey (inv : Inventory) (k : String) : Option InventoryItem :=
  (inv.find? fun e => e.1 = k).map fun e => e.2

/-- The inventory without the entry of a name. -/
def eraseKey (k : String) (inv : Inventory) : Inventory :=
  inv.filter fun e => e.1 ≠ k

/-- The inventory with the entry of a name created or overwritten. -/
def setKey (k : String) (v : InventoryItem) (inv : Inventory) : Inventory :=
  eraseKey k inv ++ [(k, v)]

/-- Modelled from the spec: the inventory server of the REST contract (section 6), which
is not part of the client source. `GET /api/inventory` returns the mapping; `POST
/api/inventory` creates or overwrites the entry named in the body; `PUT
/api/inventory/{name}` replaces the entry at the path name by the entry the body
describes, under the body's name; `DELETE /api/inventory/{name}` removes the entry;
`POST /api/inventory/reset` clears the inventory. The result is the new inventory and
the response. -/
def serverStep (inv : Inventory) (req : Request) : Inventory × Response :=
  if req.method = "GET" then
    if req.url = API then (inv, ⟨200, some (inv.map fun e => (e.1, some e.2))⟩)
    else (inv, ⟨404, none⟩)
  else if req.method = "POST" then
    if req.url = API then
      match req.body with
      | some b => (setKey b.name ⟨b.quantity, some b.unit⟩ inv, ⟨200, none⟩)
      | none => (inv, ⟨400, none⟩)
    else if req.url = API ++ "/reset" then ([], ⟨200, none⟩)
    else (inv, ⟨404, none⟩)
  else if req.method = "PUT" then
    match pathName req.url, req.body with
    | some k, some b =>
      if (getKey inv k).isSome then
        (setKey b.name ⟨b.quantity, some b.unit⟩ (eraseKey k inv), ⟨200, none⟩)
      else (inv, ⟨404, none⟩)
    | _, _ => (inv, ⟨400, none⟩)
  else if req.method = "DELETE" then
    match pathName req.url with
    | some k => (eraseKey k inv, ⟨200, none⟩)
    | none => (inv, ⟨400, none⟩)
  else (inv, ⟨405, none⟩)

/-- The inventory of the server after it handled the requests of a log, oldest first. -/
def serverRun (inv : Inventory) (log : List Request) : Inventory :=
  log.foldl (fun s r => (serverStep s r).1) inv

/-- The environment in which every request is answered by the server started on the
given inventory. -/
def serverNet (inv0 : Inventory) : Network :=
  fun log req => some (serverStep (serverRun inv0 log) req).2

/-! ## Auxiliary facts -/

theorem strOr_empty (a : String) : strOr a "" = a := by
  unfold strOr; split <;> simp_all

theorem dropWhile_trimChars (cs : List Char) :
    (trimChars cs).dropWhile isWhiteSpace = trimChars cs := by
  unfold trimChars
  obtain ⟨s, hs⟩ := List.rdropWhile_prefix isWhiteSpace (cs.dropWhile isWhiteSpace)
  cases hb : (cs.dropWhile isWhiteSpace).rdropWhile isWhiteSpace with
  | nil => rfl
  | cons x t =>
    rw [hb] at hs
    have hne : cs.dropWhile isWhiteSpace ≠ [] := by
      intro h; rw [h] at hs; simp at hs
    have hx := List.head_dropWhile_not isWhiteSpace cs hne
    have hhead : (cs.dropWhile isWhiteSpace).head hne = x := by
      simp [← hs]
    rw [hhead] at hx
    simp [List.dropWhile_cons, hx]

theorem trimChars_idem (cs : List Char) : trimChars (trimChars cs) = trimChars cs := by
  have h := dropWhile_trimChars cs
  have h2 : trimChars (trimChars cs)
      = ((trimChars cs).dropWhile isWhiteSpace).rdropWhile isWhiteSpace := rfl
  rw [h2, h]
  unfold trimChars
  exact List.rdropWhile_idempotent _ _

theorem Number_trim (s : String) : Number (trim s) = Number s := by
  simp [Number, trim, trimChars_idem]

theorem trim_eq_empty_iff (s : String) : trim s = "" ↔ trimChars s.data = [] := by
  unfold trim
  constructor
  · intro h
    have := congrArg String.data h
    simpa using this
  · intro h; rw [h]

theorem getStepForUnit_lookup (u : String) :
    getStepForUnit u = (stepCases.lookup u).getD 0.1 := by
  unfold getStepForUnit
  split
  case h_13 h1 h2 h3 h4 h5 h6 h7 h8 h9 h10 h11 h12 =>
    simp only [stepCases, List.lookup, beq_false_of_ne h1, beq_false_of_ne h2,
      beq_false_of_ne h3, beq_false_of_ne h4, beq_false_of_ne h5, beq_false_of_ne h6,
      beq_false_of_ne h7, beq_false_of_ne h8, beq_false_of_ne h9, beq_false_of_ne h10,
      beq_false_of_ne h11, beq_false_of_ne h12, Option.getD_none]
  all_goals simp [stepCases, List.lookup]

/-! ## URL-encoding can be read back -/

theorem digitValue_hexDigit (n : Nat) (h : n < 16) : digitValue (hexDigit n) = some n := by
  interval_cases n <;> decide

theorem readByte_pctByte (b : Nat) (h : b < 256) (rest : List Char) :
    readByte (pctByte b ++ rest) = some (b, rest) := by
  have h1 : b / 16 < 16 := by omega
  have h2 : b % 16 < 16 := by omega
  have h3 : 16 * (b / 16) + b % 16 = b := by omega
  simp [pctByte, readByte, digitValue_hexDigit _ h1, digitValue_hexDigit _ h2, h3]

theorem readBytes_flatMap (bs : List Nat) (h : ∀ b ∈ bs, b < 256) (rest : List Char) :
    readBytes bs.length (bs.flatMap pctByte ++ rest) = some (bs, rest) := by
  induction bs with
  | nil => simp [readBytes]
  | cons b t ih =>
    have hb : b < 256 := h b (List.mem_cons_self _ _)
    have ht := ih (fun x hx => h x (List.mem_cons_of_mem _ hx))
    simp only [List.flatMap_cons, List.length_cons, List.append_assoc, readBytes,
      readByte_pctByte b hb, ht]

theorem utf8Bytes_spec (n : Nat) (h : n < 0x110000) :
    ∃ b0 bs, utf8Bytes n = b0 :: bs ∧ (∀ b ∈ b0 :: bs, b < 256) ∧
      seqLength b0 - 1 = bs.length ∧ utf8Value (b0 :: bs) = some n := by
  unfold utf8Bytes
  split_ifs with h1 h2 h3
  · refine ⟨_, _, rfl, ?_, ?_, ?_⟩
    · simp; omega
    · have : n < 0xC0 := by omega
      simp [seqLength, this]
    · simp [utf8Value, h1]
  · refine ⟨_, _, rfl, ?_, ?_, ?_⟩
    · simp; omega
    · have : ¬ (0xC0 + n / 64 < 0xC0) := by omega
      have : 0xC0 + n / 64 < 0xE0 := by omega
      simp [seqLength, *]
    · simp [utf8Value, isCont]; omega
  · refine ⟨_, _, rfl, ?_, ?_, ?_⟩
    · simp; omega
    · have : ¬ (0xE0 + n / 4096 < 0xC0) := by omega
      have : ¬ (0xE0 + n / 4096 < 0xE0) := by omega
      have : 0xE0 + n / 4096 < 0xF0 := by omega
      simp [seqLength, *]
    · simp [utf8Value, isCont]; omega
  · refine ⟨_, _, rfl, ?_, ?_, ?_⟩
    · simp; omega
    · have : ¬ (0xF0 + n / 262144 < 0xC0) := by omega
      have : ¬ (0xF0 + n / 262144 < 0xE0) := by omega
      have : ¬ (0xF0 + n / 262144 < 0xF0) := by omega
      simp [seqLength, *]
    · simp [utf8Value, isCont]; omega

theorem char_toNat_lt (c : Char) : c.toNat < 0x110000 := by
  have := c.valid
  rcases this with h | h
  · have : c.toNat = c.val.toNat := rfl
    omega
  · have : c.toNat = c.val.toNat := rfl
    omega

theorem decodeOne_encodeChar (c : Char) (rest : List Char) :
    decodeOne (encodeChar c ++ rest) = some (c, rest) := by
  unfold encodeChar
  by_cases hu : uriUnreserved c = true
  · have hc : c ≠ '%' := by
      intro e; rw [e] at hu; exact absurd hu (by decide)
    simp [hu, decodeOne, hc]
  · obtain ⟨b0, bs, hb, hlt, hlen, hval⟩ := utf8Bytes_spec c.toNat (char_toNat_lt c)
    have hb0 : b0 < 256 := hlt b0 (List.mem_cons_self _ _)
    have hbs : ∀ b ∈ bs, b < 256 := fun x hx => hlt x (List.mem_cons_of_mem _ hx)
    have e1 : readByte ('%' :: (hexDigit (b0 / 16) :: hexDigit (b0 % 16) ::
        (bs.flatMap pctByte ++ rest))) = some (b0, bs.flatMap pctByte ++ rest) := by
      have := readByte_pctByte b0 hb0 (bs.flatMap pctByte ++ rest)
      simpa [pctByte] using this
    simp only [hu, hb, List.flatMap_cons, pctByte, List.cons_append, List.nil_append,
      List.append_assoc, decodeOne, if_true, Bool.false_eq_true, if_false]
    rw [e1]
    simp only [hlen]
    have e2 := readBytes_flatMap bs hbs rest
    simp only [pctByte, List.cons_append, List.nil_append] at e2
    rw [e2]
    simp [hval, Char.ofNat_toNat]

theorem encodeChar_length_pos (c : Char) : 0 < (encodeChar c).length := by
  unfold encodeChar
  split
  · simp
  · obtain ⟨b0, bs, hb, _⟩ := utf8Bytes_spec c.toNat (char_toNat_lt c)
    simp [hb, pctByte]

theorem decodeLoop_encode (l : List Char) :
    ∀ n, (l.flatMap encodeChar).length ≤ n →
      decodeLoop n (l.flatMap encodeChar) = some l := by
  induction l with
  | nil => intro n _; cases n <;> simp [decodeLoop]
  | cons c t ih =>
    intro n hn
    have hpos := encodeChar_length_pos c
    simp only [List.flatMap_cons, List.length_append] at hn
    cases n with
    | zero => omega
    | succ m =>
      have hm : (t.flatMap encodeChar).length ≤ m := by omega
      have hd := decodeOne_encodeChar c (t.flatMap encodeChar)
      rw [List.flatMap_cons]
      cases he : encodeChar c ++ t.flatMap encodeChar with
      | nil =>
        have h0 : (encodeChar c ++ t.flatMap encodeChar).length = 0 := by rw [he]; rfl
        rw [List.length_append] at h0
        omega
      | cons x xs =>
        rw [he] at hd
        simp [decodeLoop, hd, ih m hm]

theorem decodePathSegment_encode (s : String) :
    decodePathSegment (encodeURIComponent s).data = some s := by
  show (decodeLoop (s.data.flatMap encodeChar).length (s.data.flatMap encodeChar)).map
    String.mk = some s
  rw [decodeLoop_encode s.data _ (le_refl _)]
  rfl

theorem stripLeading_append (a b : List Char) : stripLeading a (a ++ b) = some b := by
  induction a with
  | nil => cases b <;> rfl
  | cons x t ih => simp [stripLeading, ih]

theorem pathName_encode (s : String) : pathName (API ++ "/" ++ encodeURIComponent s) = some s := by
  unfold pathName
  have : (API ++ "/" ++ encodeURIComponent s).data
      = (API ++ "/").data ++ (encodeURIComponent s).data := by
    simp [String.data_append]
  rw [this, stripLeading_append]
  exact decodePathSegment_encode s

/-! ## The server's inventory -/

theorem getKey_eraseKey_self (k : String) (inv : Inventory) :
    getKey (eraseKey k inv) k = none := by
  induction inv with
  | nil => rfl
  | cons e t ih =>
    obtain ⟨a, v⟩ := e
    by_cases h : a = k
    · have : eraseKey k ((a, v) :: t) = eraseKey k t := by
        simp [eraseKey, List.filter_cons, h]
      rw [this, ih]
    · have h1 : eraseKey k ((a, v) :: t) = (a, v) :: eraseKey k t := by
        simp [eraseKey, List.filter_cons, h]
      have h2 : getKey ((a, v) :: eraseKey k t) k = getKey (eraseKey k t) k := by
        simp [getKey, List.find?_cons, h]
      rw [h1, h2, ih]

theorem getKey_eraseKey_ne (k j : String) (inv : Inventory) (h : j ≠ k) :
    getKey (eraseKey k inv) j = getKey inv j := by
  induction inv with
  | nil => rfl
  | cons e t ih =>
    obtain ⟨a, v⟩ := e
    by_cases hk : a = k
    · have hj : ¬ a = j := fun e2 => h (e2.symm.trans hk)
      have h1 : eraseKey k ((a, v) :: t) = eraseKey k t := by
        simp [eraseKey, List.filter_cons, hk]
      have h2 : getKey ((a, v) :: t) j = getKey t j := by
        simp [getKey, List.find?_cons, hj]
      rw [h1, h2, ih]
    · have h1 : eraseKey k ((a, v) :: t) = (a, v) :: eraseKey k t := by
        simp [eraseKey, List.filter_cons, hk]
      rw [h1]
      by_cases hj : a = j
      · simp [getKey, List.find?_cons, hj]
      · have h2 : getKey ((a, v) :: eraseKey k t) j = getKey (eraseKey k t) j := by
          simp [getKey, List.find?_cons, hj]
        have h3 : getKey ((a, v) :: t) j = getKey t j := by
          simp [getKey, List.find?_cons, hj]
        rw [h2, h3, ih]

theorem getKey_append_singleton (inv : Inventory) (k j : String) (v : InventoryItem) :
    getKey (inv ++ [(k, v)]) j
      = match getKey inv j with
        | some x => some x
        | none => if k = j then some v else none := by
  induction inv with
  | nil => by_cases h : k = j <;> simp [getKey, List.find?_cons, h]
  | cons e t ih =>
    by_cases hj : e.1 = j
    · simp [getKey, List.find?_cons, hj]
    · simpa [getKey, List.find?_cons, hj] using ih

theorem getKey_setKey_self (k : String) (v : InventoryItem) (inv : Inventory) :
    getKey (setKey k v inv) k = some v := by
  unfold setKey
  rw [getKey_append_singleton, getKey_eraseKey_self]
  simp

theorem getKey_setKey_ne (k j : String) (v : InventoryItem) (inv : Inventory) (h : j ≠ k) :
    getKey (setKey k v inv) j = getKey inv j := by
  unfold setKey
  have h2 : ¬ k = j := fun e => h e.symm
  rw [getKey_append_singleton, getKey_eraseKey_ne k j inv h]
  cases getKey inv j <;> simp [h2]

theorem serverRun_append (inv : Inventory) (l1 l2 : List Request) :
    serverRun inv (l1 ++ l2) = serverRun (serverRun inv l1) l2 := by
  simp [serverRun, List.foldl_append]

theorem serverStep_list (inv : Inventory) :
    serverStep inv listRequest = (inv, ⟨200, some (inv.map fun e => (e.1, some e.2))⟩) := by
  simp [serverStep, listRequest]

theorem trim_empty : trim "" = "" := by decide

theorem serverStep_update (inv : Inventory) (oldName newName q u : String) (r : ℚ)
    (hold : (getKey inv oldName).isSome = true) (hnew : trim newName ≠ "")
    (hq : q ≠ "") (hnum : Number q = JSNumber.finite r) :
    (serverStep inv (updateItemRequest oldName newName q u)).1
      = setKey (trim newName) ⟨some r, some u⟩ (eraseKey oldName inv) := by
  have hn : newName ≠ "" := fun e => hnew (by rw [e]; exact trim_empty)
  have hname : (updateItemPayload oldName newName q u).name = trim newName := by
    simp [updateItemPayload, strOr, hn]
  have hqty : (updateItemPayload oldName newName q u).quantity = JSNumber.finite r := by
    simp [updateItemPayload, hq, hnum]
  have hunit : (updateItemPayload oldName newName q u).unit = u := strOr_empty u
  have hbody : (updateItemRequest oldName newName q u).body
      = some ⟨trim newName, some r, u⟩ := by
    simp [updateItemRequest, JSON_stringify, hname, hqty, hunit, jsonNumber]
  have hpath : pathName (updateItemRequest oldName newName q u).url = some oldName :=
    pathName_encode oldName
  have hm : (updateItemRequest oldName newName q u).method = "PUT" := rfl
  unfold serverStep
  rw [hm, hpath, hbody]
  simp [hold]

theorem forEachRender_eq (es : Members) (q : Page) :
    forEachRender es q
      = { q with body := q.body ++
            (es.takeWhile fun e => e.2.isSome).filterMap fun e => e.2.map (mkRow e.1) } := by
  induction es generalizing q with
  | nil => simp [forEachRender]
  | cons e t ih =>
    obtain ⟨k, v⟩ := e
    cases v with
    | none => simp [forEachRender, renderRow]
    | some it =>
      simp only [forEachRender, renderRow, ih]
      simp [List.takeWhile_cons]

theorem refresh_requests (net : Network) (p : Page) :
    (refresh net p).requests = p.requests ++ [listRequest] := by
  unfold refresh fetch
  cases net p.requests listRequest with
  | none => rfl
  | some res =>
    cases hj : res.json with
    | none => simp [hj]
    | some data => simp [hj, forEachRender_eq]

theorem refresh_alerts (net : Network) (p : Page) :
    (refresh net p).alerts = p.alerts := by
  unfold refresh fetch
  cases net p.requests listRequest with
  | none => rfl
  | some res =>
    cases hj : res.json with
    | none => simp [hj]
    | some data => simp [hj, forEachRender_eq]

theorem refresh_body_until_null (net : Network) (p : Page) (status : Nat) (ms : Members)
    (h : net p.requests listRequest = some ⟨status, some ms⟩) :
    (refresh net p).body
      = ((Object_entries (JSON_parse ms)).takeWhile fun e => e.2.isSome).filterMap
          fun e => e.2.map (mkRow e.1) := by
  unfold refresh fetch
  simp [h, forEachRender_eq]

theorem rows_of_items (es : Members) (h : ∀ e ∈ es, e.2 ≠ none) :
    ((es.takeWhile fun e => e.2.isSome).filterMap fun e => e.2.map (mkRow e.1))
      = es.map fun e => mkRow e.1 (e.2.getD ⟨none, none⟩) := by
  induction es with
  | nil => rfl
  | cons e t ih =>
    obtain ⟨k, v⟩ := e
    have ht := ih (fun x hx => h x (List.mem_cons_of_mem _ hx))
    cases v with
    | none => exact absurd rfl (h (k, none) (List.mem_cons_self _ _))
    | some it =>
      simp only [List.takeWhile_cons, Option.isSome_some, if_true, List.filterMap_cons,
        Option.map_some', List.map_cons, Option.getD_some, ht]

theorem setProperty_mem (obj : Members) (k : String) (v : Option InventoryItem)
    (e : String × Option InventoryItem) (he : e ∈ setProperty obj k v) :
    e ∈ obj ∨ e = (k, v) := by
  unfold setProperty at he
  split at he
  · simp only [List.mem_map] at he
    obtain ⟨x, hx, rfl⟩ := he
    split
    · exact Or.inr rfl
    · exact Or.inl hx
  · simp only [List.mem_append, List.mem_singleton] at he
    exact he

theorem foldl_setProperty_mem (ms acc : Members) (e : String × Option InventoryItem)
    (he : e ∈ ms.foldl (fun obj m => setProperty obj m.1 m.2) acc) : e ∈ acc ∨ e ∈ ms := by
  induction ms generalizing acc with
  | nil => exact Or.inl he
  | cons m t ih =>
    rw [List.foldl_cons] at he
    rcases ih _ he with h1 | h1
    · rcases setProperty_mem _ _ _ _ h1 with h2 | h2
      · exact Or.inl h2
      · exact Or.inr (by rw [h2]; exact List.mem_cons_self _ _)
    · exact Or.inr (List.mem_cons_of_mem _ h1)

theorem JSON_parse_mem (ms : Members) (e : String × Option InventoryItem)
    (he : e ∈ JSON_parse ms) : e ∈ ms := by
  rcases foldl_setProperty_mem ms [] e he with h | h
  · simp at h
  · exact h

theorem foldl_setProperty_nodup (ms acc : Members)
    (h : ((acc ++ ms).map fun e => e.1).Nodup) :
    ms.foldl (fun obj m => setProperty obj m.1 m.2) acc = acc ++ ms := by
  induction ms generalizing acc with
  | nil => simp
  | cons m t ih =>
    rw [List.foldl_cons]
    have hm : ¬ (acc.any fun e => e.1 = m.1) = true := by
      intro hc
      simp only [List.any_eq_true, decide_eq_true_eq] at hc
      obtain ⟨x, hx, hxm⟩ := hc
      simp only [List.map_append, List.map_cons] at h
      have := (List.nodup_append.mp h).2.2
      exact this (List.mem_map_of_mem (fun e => e.1) hx) (by rw [hxm]; exact List.mem_cons_self _ _)
    have hs : setProperty acc m.1 m.2 = acc ++ [m] := by
      unfold setProperty
      simp only [hm, if_false, Bool.false_eq_true]
    rw [hs, ih (acc ++ [m]) (by simpa using h)]
    simp

theorem JSON_parse_nodup (ms : Members) (h : (ms.map fun e => e.1).Nodup) :
    JSON_parse ms = ms := by
  have := foldl_setProperty_nodup ms [] (by simpa using h)
  simpa [JSON_parse] using this

theorem Object_entries_perm (obj : Members) : (Object_entries obj).Perm obj := by
  unfold Object_entries
  exact ((List.perm_insertionSort _ _).append_right _).trans (List.filter_append_perm _ _)

theorem Object_entries_sorted (obj : Members) :
    ((obj.filter fun e => (arrayIndex e.1).isSome).insertionSort
      (fun a b => indexOf a ≤ indexOf b)).Pairwise (fun a b => indexOf a ≤ indexOf b) := by
  haveI : IsTotal (String × Option InventoryItem) (fun a b => indexOf a ≤ indexOf b) :=
    ⟨fun a b => Nat.le_total _ _⟩
  haveI : IsTrans (String × Option InventoryItem) (fun a b => indexOf a ≤ indexOf b) :=
    ⟨fun a b c => Nat.le_trans⟩
  exact List.sorted_insertionSort _ _

theorem Object_entries_no_index (obj : Members) (h : ∀ e ∈ obj, arrayIndex e.1 = none) :
    Object_entries obj = obj := by
  unfold Object_entries
  have h1 : obj.filter (fun e => (arrayIndex e.1).isSome) = [] := by
    rw [List.filter_eq_nil_iff]
    intro e he
    simp [h e he]
  have h2 : obj.filter (fun e => !(arrayIndex e.1).isSome) = obj := by
    rw [List.filter_eq_self]
    intro e he
    simp [h e he]
  rw [h1, h2]
  rfl

theorem entries_items (ms : Members) (h : ∀ e ∈ ms, e.2 ≠ none) :
    ∀ e ∈ Object_entries (JSON_parse ms), e.2 ≠ none := by
  intro e he
  exact h e (JSON_parse_mem ms e (((Object_entries_perm _).mem_iff).mp he))

theorem refresh_body (net : Network) (p : Page) (status : Nat) (ms : Members)
    (h : net p.requests listRequest = some ⟨status, some ms⟩)
    (hitems : ∀ e ∈ ms, e.2 ≠ none) :
    (refresh net p).body
      = (Object_entries (JSON_parse ms)).map fun e => mkRow e.1 (e.2.getD ⟨none, none⟩) := by
  rw [refresh_body_until_null net p status ms h, rows_of_items _ (entries_items ms hitems)]

theorem isDigit_toNat (c : Char) (h : c.isDigit = true) : 48 ≤ c.toNat ∧ c.toNat ≤ 57 := by
  simp only [Char.isDigit, Bool.and_eq_true, decide_eq_true_eq] at h
  have h1 : (48 : UInt32).toNat ≤ c.val.toNat := h.1
  have h2 : c.val.toNat ≤ (57 : UInt32).toNat := h.2
  exact ⟨h1, h2⟩

theorem isDigit_not_whiteSpace (c : Char) (h : c.isDigit = true) : isWhiteSpace c = false := by
  obtain ⟨h1, h2⟩ := isDigit_toNat c h
  simp only [isWhiteSpace, Bool.or_eq_false_iff, beq_eq_false_iff_ne, ne_eq,
    Bool.and_eq_false_iff, decide_eq_false_iff_not]
  omega

theorem isValidFloat_head (cs : List Char) (h : isValidFloat cs = true) :
    ∃ c rest, cs = c :: rest ∧ isWhiteSpace c = false := by
  cases cs with
  | nil => exact absurd h (by decide)
  | cons c rest =>
    refine ⟨c, rest, rfl, ?_⟩
    by_contra hw
    have hw : isWhiteSpace c = true := by simpa using hw
    have hd : c.isDigit = false := by
      by_contra hd
      have hd : c.isDigit = true := by simpa using hd
      rw [isDigit_not_whiteSpace c hd] at hw
      exact absurd hw (by decide)
    have hm : c ≠ '-' := by
      intro e; rw [e] at hw; exact absurd hw (by decide)
    have hp : c ≠ '.' := by
      intro e; rw [e] at hw; exact absurd hw (by decide)
    have hu : isUnsignedFloat (c :: rest) = false := by
      unfold isUnsignedFloat
      simp only [List.dropWhile_cons, hd, List.takeWhile_cons, Bool.false_eq_true, if_false]
      split
      · rename_i t heq
        injection heq with h1 _
        exact absurd h1 hp
      · simp
    have hv : isValidFloat (c :: rest) = isUnsignedFloat (c :: rest) := by
      unfold isValidFloat
      split
      · rename_i t heq
        injection heq with h1 _
        exact absurd h1 hm
      · rfl
    rw [hv, hu] at h
    exact absurd h (by decide)

theorem trimChars_ne_nil (c : Char) (rest : List Char) (h : isWhiteSpace c = false) :
    trimChars (c :: rest) ≠ [] := by
  unfold trimChars
  rw [List.dropWhile_cons_of_neg (by simp [h])]
  intro e
  rw [List.rdropWhile_eq_nil_iff] at e
  have := e c (List.mem_cons_self _ _)
  rw [h] at this
  exact absurd this (by decide)

theorem numberInputValue_cases (t : String) :
    numberInputValue t = "" ∨ trimChars (numberInputValue t).data ≠ [] := by
  unfold numberInputValue
  by_cases h : isValidFloat t.data = true
  · obtain ⟨c, rest, hc, hw⟩ := isValidFloat_head _ h
    right
    rw [if_pos h, hc]
    exact trimChars_ne_nil c rest hw
  · left
    rw [if_neg h]

theorem issued_append (p q : Page) (l : List Request) (h : q.requests = p.requests ++ l) :
    issued p q = l := by
  unfold issued; rw [h]; exact List.drop_left _ _

theorem addItem_invalid (net : Network) (p : Page) (h : trim p.newName = "") :
    addItem net p = { p with alerts := p.alerts ++ ["Name required"] } := by
  unfold addItem
  have : (addItemPayload p).name = "" := h
  simp [this]

theorem addItem_valid_requests (net : Network) (p : Page) (h : trim p.newName ≠ "") :
    (addItem net p).alerts = p.alerts ∧
    (issued p (addItem net p) = [addItemRequest p] ∨
     issued p (addItem net p) = [addItemRequest p, listRequest]) := by
  unfold addItem
  have hn : ¬ (addItemPayload p).name = "" := h
  simp only [hn, if_false, fetch]
  cases net p.requests (addItemRequest p) with
  | none => exact ⟨rfl, Or.inl (issued_append _ _ _ rfl)⟩
  | some r =>
    refine ⟨by simp [refresh_alerts], Or.inr (issued_append _ _ _ ?_)⟩
    simp [refresh_requests]

/-- C1: getStepForUnit is a total function of the unit string that returns 1 for pcs,
cloves and slices, 0.25 for cup, tsp and lbs, 0.5 for tbsp and oz, 10 for g and ml, 0.1
for kg and L, and 0.1 for every string that is not one of these twelve, among them the
empty string and spellings that differ from a listed unit in case or surrounding white
space. -/
theorem getStepForUnit_table :
    getStepForUnit "pcs" = 1 ∧ getStepForUnit "cloves" = 1 ∧ getStepForUnit "slices" = 1 ∧
    getStepForUnit "cup" = 0.25 ∧ getStepForUnit "tsp" = 0.25 ∧
    getStepForUnit "lbs" = 0.25 ∧
    getStepForUnit "tbsp" = 0.5 ∧ getStepForUnit "oz" = 0.5 ∧
    getStepForUnit "g" = 10 ∧ getStepForUnit "ml" = 10 ∧
    getStepForUnit "kg" = 0.1 ∧ getStepForUnit "L" = 0.1 ∧
    (∀ u : String,
      u ∉ ["pcs", "cloves", "slices", "cup", "tsp", "lbs", "tbsp", "oz", "g", "ml", "kg", "L"] →
      getStepForUnit u = 0.1) ∧
    getStepForUnit "" = 0.1 ∧ getStepForUnit "PCS" = 0.1 ∧ getStepForUnit "Kg" = 0.1 ∧
    getStepForUnit "l" = 0.1 ∧ getStepForUnit " cup" = 0.1 ∧ getStepForUnit "g " = 0.1 := by
  refine ⟨rfl, rfl, rfl, rfl, rfl, rfl, rfl, rfl, rfl, rfl, rfl, rfl, ?_, rfl, rfl, rfl, rfl,
    rfl, rfl⟩
  intro u hu
  simp only [List.mem_cons, List.mem_singleton, List.not_mem_nil, or_false, not_or] at hu
  unfold getStepForUnit
  split <;> simp_all

/-- C2: addItem issues no request and shows the alert "Name required" exactly when the
name is empty after trimming; when the trimmed name is non-empty it shows no alert and
issues exactly one POST, addressed to /api/inventory, any further request being the GET
of the refresh. -/
theorem addItem_validation_gate (net : Network) (p : Page) :
    (issued p (addItem net p) = [] ↔ trim p.newName = "") ∧
    ((addItem net p).alerts = p.alerts ++ ["Name required"] ↔ trim p.newName = "") ∧
    (trim p.newName ≠ "" →
      (addItem net p).alerts = p.alerts ∧
      (issued p (addItem net p)).filter (fun r => r.method = "POST") = [addItemRequest p] ∧
      (addItemRequest p).method = "POST" ∧ (addItemRequest p).url = "/api/inventory") := by
  by_cases h : trim p.newName = ""
  · have e := addItem_invalid net p h
    refine ⟨⟨fun _ => h, fun _ => ?_⟩, ⟨fun _ => h, fun _ => ?_⟩, fun hn => absurd h hn⟩
    · rw [e]; exact issued_append _ _ _ (by simp)
    · rw [e]
  · obtain ⟨ha, hr⟩ := addItem_valid_requests net p h
    refine ⟨⟨fun h0 => ?_, fun h0 => absurd h0 h⟩, ⟨fun h0 => ?_, fun h0 => absurd h0 h⟩,
      fun _ => ⟨ha, ?_, rfl, rfl⟩⟩
    · rcases hr with hr | hr <;> rw [hr] at h0 <;> simp at h0
    · rw [ha] at h0
      have := congrArg List.length h0
      simp at this
    · rcases hr with hr | hr <;> rw [hr] <;>
        simp [List.filter, addItemRequest, listRequest]

theorem updateItem_issued_head (net : Network) (oldName newName qty unit : String)
    (p : Page) :
    ∃ rest, issued p (updateItem net oldName newName qty unit p)
      = updateItemRequest oldName newName qty unit :: rest := by
  unfold updateItem fetch
  cases net p.requests (updateItemRequest oldName newName qty unit) with
  | none => exact ⟨[], issued_append _ _ _ rfl⟩
  | some r => exact ⟨[listRequest], issued_append _ _ _ (by simp [refresh_requests])⟩

theorem filter_eq_of_nodup (u : String) (l : List String) (hl : l.Nodup) :
    l.filter (fun x => decide (x = u)) = if u ∈ l then [u] else [] := by
  induction l with
  | nil => simp
  | cons a t ih =>
    have hat : a ∉ t := (List.nodup_cons.mp hl).1
    have ht := ih (List.nodup_cons.mp hl).2
    by_cases h : a = u
    · subst h
      simp [List.filter_cons, ht, hat]
    · have h2 : ¬ u = a := fun e => h e.symm
      simp [List.filter_cons, h, h2, ht]

theorem STANDARD_UNITS_nodup : STANDARD_UNITS.Nodup := by decide

theorem selected_values (unit : String) :
    ((fillUnitSelect unit).filter (fun o => o.selected)).map (fun o => o.value)
      = if unit ∈ STANDARD_UNITS then [unit] else [] := by
  unfold fillUnitSelect
  rw [List.filter_map, List.map_map]
  have : (STANDARD_UNITS.filter
      ((fun o : OptionEl => o.selected) ∘
        fun u => ({ value := u, selected := decide (u = unit), text := u } : OptionEl)))
      = STANDARD_UNITS.filter (fun x => decide (x = unit)) := rfl
  rw [this, filter_eq_of_nodup unit _ STANDARD_UNITS_nodup]
  split <;> simp

/-- C3: when the trimmed name is non-empty, the first request addItem issues is the POST
whose body serialises the object with name the trimmed name, quantity 1 when the raw
quantity is empty after trimming and otherwise Number of the trimmed raw quantity, and
unit the value of the unit control; an empty or white-space-only raw quantity is sent as
the number 1. -/
theorem addItem_request_payload (net : Network) (p : Page) (h : trim p.newName ≠ "") :
    (∃ rest, issued p (addItem net p) = addItemRequest p :: rest) ∧
    (addItemRequest p).body = some (JSON_stringify
      { name := trim p.newName
        quantity := if trim p.newQty = "" then JSNumber.finite 1 else Number (trim p.newQty)
        unit := p.newUnit }) ∧
    (trim p.newQty = "" →
      (addItemRequest p).body = some { name := trim p.newName, quantity := some 1,
                                       unit := p.newUnit }) := by
  refine ⟨?_, ?_, ?_⟩
  · rcases (addItem_valid_requests net p h).2 with hr | hr <;> rw [hr] <;> simp
  · simp [addItemRequest, addItemPayload, strOr_empty]
  · intro hq
    simp [addItemRequest, addItemPayload, strOr_empty, hq, JSON_stringify, jsonNumber]

/-- Instance of `addItem_request_payload` for the name "Salt" and three raw quantities.
"9007199254740993" is sent as 9007199254740992 and "0.1" as the binary64 value nearest
to one tenth, and "1e400", which overflows to Infinity, is sent as null. -/
theorem addItem_request_payload_witness :
    trim "Salt" ≠ "" ∧
    (addItemRequest ⟨"Salt", "9007199254740993", 1, "g", [], [], []⟩).body
      = some { name := "Salt", quantity := some 9007199254740992, unit := "g" } ∧
    (addItemRequest ⟨"Salt", " 0.1", 1, "g", [], [], []⟩).body
      = some { name := "Salt", quantity := some (3602879701896397 / 36028797018963968),
               unit := "g" } ∧
    (addItemRequest ⟨"Salt", "1e400", 1, "g", [], [], []⟩).body
      = some { name := "Salt", quantity := none, unit := "g" } :=
  ⟨by decide,
   (addItem_request_payload (fun _ _ => none)
      ⟨"Salt", "9007199254740993", 1, "g", [], [], []⟩ (by decide)).2.1.trans (by decide!),
   (addItem_request_payload (fun _ _ => none)
      ⟨"Salt", " 0.1", 1, "g", [], [], []⟩ (by decide)).2.1.trans (by decide!),
   (addItem_request_payload (fun _ _ => none)
      ⟨"Salt", "1e400", 1, "g", [], [], []⟩ (by decide)).2.1.trans (by decide!)⟩

/-- C4 (evaluation of the code): for oldName "Flour" and a newName of three spaces the
payload name computed by updateItem is the empty string, not "Flour"; and with an empty
newName the fallback is the trimmed oldName, not oldName as given. -/
theorem updateItem_whitespace_name_is_empty :
    trim "   " = "" ∧
    (updateItemPayload "Flour" "   " "3" "kg").name = "" ∧
    (updateItemRequest "Flour" "   " "3" "kg").body
      = some { name := "", quantity := some 3, unit := "kg" } ∧
    (updateItemPayload " Flour " "" "3" "kg").name = "Flour" := by
  refine ⟨by decide, by decide, ?_, by decide⟩
  have h1 : (updateItemPayload "Flour" "   " "3" "kg").name = "" := by decide
  have h2 : (updateItemPayload "Flour" "   " "3" "kg").quantity = JSNumber.finite 3 := by
    decide!
  have h3 : (updateItemPayload "Flour" "   " "3" "kg").unit = "kg" := by decide
  simp [updateItemRequest, JSON_stringify, h1, h2, h3, jsonNumber]

/-- On an arbitrary string the two quantity rules agree exactly when the string is empty
or is not made only of white space. -/
theorem updateItem_quantity_vs_addItem (p : Page) (oldName newName unit : String) :
    (updateItemPayload oldName newName p.newQty unit).quantity
      = (if p.newQty = "" then JSNumber.finite 1 else Number p.newQty) ∧
    ((updateItemPayload oldName newName p.newQty unit).quantity = (addItemPayload p).quantity
      ↔ (p.newQty = "" ∨ trim p.newQty ≠ "")) ∧
    (p.newQty ≠ "" ∧ trim p.newQty = "" →
      (updateItemPayload oldName newName p.newQty unit).quantity = JSNumber.finite 0 ∧
      (addItemPayload p).quantity = JSNumber.finite 1) := by
  have hws : p.newQty ≠ "" → trim p.newQty = "" →
      (updateItemPayload oldName newName p.newQty unit).quantity = JSNumber.finite 0 ∧
      (addItemPayload p).quantity = JSNumber.finite 1 := by
    intro h1 h2
    have h3 := (trim_eq_empty_iff _).mp h2
    simp [updateItemPayload, addItemPayload, h1, h2, Number, h3]
  refine ⟨rfl, ?_, fun h => hws h.1 h.2⟩
  by_cases h1 : p.newQty = ""
  · have h2 : trim "" = "" := by decide
    simp [updateItemPayload, addItemPayload, h1, h2]
  · by_cases h2 : trim p.newQty = ""
    · obtain ⟨a, b⟩ := hws h1 h2
      simp [a, b, h1, h2]
    · simp [updateItemPayload, addItemPayload, h1, h2, Number_trim]

/-- C5: updateItem applies the quantity rule of addItem. The raw quantity q that updateItem
receives is the value of the quantity input of the row, an input of type number, whatever
text was typed into it: the Save handler, its only caller, passes that value. For every
typed text the quantity in the payload of updateItem equals the quantity addItem computes
for the same q, namely 1 when q is empty after trimming and Number(q) otherwise; a typed
text made only of white space gives 1 in both. -/
theorem updateItem_quantity_rule (p : Page) (oldName newName unit typed : String) :
    (∀ (net : Network) (r : Row) (nameText unitShown : String) (q : Page),
      ∃ rest, issued q (saveRow net r nameText typed unitShown q)
        = updateItemRequest r.key (textInputValue nameText) (numberInputValue typed)
            unitShown :: rest) ∧
    (updateItemPayload oldName newName (numberInputValue typed) unit).quantity
      = (addItemPayload { p with newQty := numberInputValue typed }).quantity ∧
    (updateItemPayload oldName newName (numberInputValue typed) unit).quantity
      = (if trim (numberInputValue typed) = "" then JSNumber.finite 1
         else Number (numberInputValue typed)) ∧
    (trim typed = "" →
      numberInputValue typed = "" ∧
      (updateItemPayload oldName newName (numberInputValue typed) unit).quantity
        = JSNumber.finite 1 ∧
      (addItemPayload { p with newQty := numberInputValue typed }).quantity
        = JSNumber.finite 1) := by
  have hc : numberInputValue typed = "" ∨ trim (numberInputValue typed) ≠ "" := by
    rcases numberInputValue_cases typed with h | h
    · exact Or.inl h
    · exact Or.inr (fun e => h ((trim_eq_empty_iff _).mp e))
  have h1 := (updateItem_quantity_vs_addItem { p with newQty := numberInputValue typed }
    oldName newName unit).2.1.mpr hc
  have h2 : (addItemPayload { p with newQty := numberInputValue typed }).quantity
      = (if trim (numberInputValue typed) = "" then JSNumber.finite 1
         else Number (numberInputValue typed)) := by
    simp [addItemPayload, Number_trim]
  refine ⟨fun net r nameText unitShown q => updateItem_issued_head net _ _ _ _ q, h1,
    h1.trans h2, ?_⟩
  intro ht
  have hv : numberInputValue typed = "" := by
    unfold numberInputValue
    by_cases hval : isValidFloat typed.data = true
    · obtain ⟨c, rest, hcs, hw⟩ := isValidFloat_head _ hval
      have : trimChars typed.data ≠ [] := by rw [hcs]; exact trimChars_ne_nil c rest hw
      exact absurd ((trim_eq_empty_iff _).mp ht) this
    · rw [if_neg hval]
  have h3 : (addItemPayload { p with newQty := numberInputValue typed }).quantity
      = JSNumber.finite 1 := by
    rw [h2, hv]
    simp [trim_empty]
  exact ⟨hv, h1.trans h3, h3⟩

/-- C9 (counterexample): for the name "Salt" and the raw quantity "abc", which is
non-empty after trimming and not a numeric literal, the quantity in the request body of
addItem is the JSON value null. -/
theorem addItem_nonnumeric_sends_null :
    trim "Salt" ≠ "" ∧ trim "abc" ≠ "" ∧
    parseStrNumericLiteral (trim "abc").data = none ∧
    (addItemRequest ⟨"Salt", "abc", 1, "g", [], [], []⟩).body
      = some { name := "Salt", quantity := none, unit := "g" } := by
  decide

/-- C9 (amended): when the trimmed name is non-empty and the raw quantity is non-empty
after trimming but is not a numeric literal, the quantity addItem computes is NaN, and
the request it sends carries the JSON value null for the quantity. -/
theorem addItem_nonnumeric_quantity (net : Network) (p : Page)
    (hname : trim p.newName ≠ "") (hq : trim p.newQty ≠ "")
    (hlit : parseStrNumericLiteral (trim p.newQty).data = none) :
    (addItemPayload p).quantity = JSNumber.NaN ∧
    (∃ rest, issued p (addItem net p) = addItemRequest p :: rest) ∧
    (addItemRequest p).body
      = some { name := trim p.newName, quantity := none, unit := p.newUnit } := by
  have hN : Number (trim p.newQty) = JSNumber.NaN := by
    have hne : trimChars p.newQty.data ≠ [] := fun e => hq ((trim_eq_empty_iff _).mpr e)
    have hl : parseStrNumericLiteral (trimChars p.newQty.data) = none := hlit
    unfold Number
    have : (trim p.newQty).data = trimChars p.newQty.data := rfl
    rw [this, trimChars_idem]
    cases hc : trimChars p.newQty.data with
    | nil => exact absurd hc hne
    | cons c cs => rw [hc] at hl; simp [hl]
  have hQ : (addItemPayload p).quantity = JSNumber.NaN := by
    simp [addItemPayload, hq, hN]
  refine ⟨hQ, ?_, ?_⟩
  · rcases (addItem_valid_requests net p hname).2 with hr | hr <;> rw [hr] <;> simp
  · have h1 : (addItemPayload p).name = trim p.newName := rfl
    have h3 : (addItemPayload p).unit = p.newUnit := strOr_empty _
    simp [addItemRequest, JSON_stringify, hQ, h1, h3, jsonNumber]

/-- Instance of `addItem_nonnumeric_quantity`: name "Salt", raw quantity "abc". -/
theorem addItem_nonnumeric_quantity_witness :
    (addItemPayload ⟨"Salt", "abc", 1, "g", [], [], []⟩).quantity = JSNumber.NaN ∧
    (∃ rest, issued ⟨"Salt", "abc", 1, "g", [], [], []⟩
        (addItem (fun _ _ => none) ⟨"Salt", "abc", 1, "g", [], [], []⟩)
        = addItemRequest ⟨"Salt", "abc", 1, "g", [], [], []⟩ :: rest) ∧
    (addItemRequest ⟨"Salt", "abc", 1, "g", [], [], []⟩).body
      = some { name := trim "Salt", quantity := none, unit := "g" } :=
  addItem_nonnumeric_quantity (fun _ _ => none) ⟨"Salt", "abc", 1, "g", [], [], []⟩
    (by decide) (by decide) (by decide)

/-- C10: for every unit, fillUnitSelect offers exactly the 13 options pcs, cup, tbsp,
tsp, g, kg, ml, L, oz, lbs, cloves, slices and the empty string, in this order and
without duplicates, and marks an option selected exactly when its value equals the unit;
so one option is marked when the unit is a standard unit and none is marked otherwise.
Every non-empty standard unit is a case label of getStepForUnit, whose result is the
value of the first matching label and 0.1 when no label matches. -/
theorem fillUnitSelect_options (unit : String) :
    (fillUnitSelect unit).map (fun o => o.value)
      = ["pcs", "cup", "tbsp", "tsp", "g", "kg", "ml", "L", "oz", "lbs", "cloves",
         "slices", ""] ∧
    (fillUnitSelect unit).length = 13 ∧
    ((fillUnitSelect unit).map (fun o => o.value)).Nodup ∧
    (∀ o ∈ fillUnitSelect unit, (o.selected = true ↔ o.value = unit)) ∧
    (unit ∈ STANDARD_UNITS →
      ((fillUnitSelect unit).filter (fun o => o.selected)).map (fun o => o.value) = [unit]
      ∧ ((fillUnitSelect unit).filter (fun o => o.selected)).length = 1) ∧
    (unit ∉ STANDARD_UNITS → (fillUnitSelect unit).filter (fun o => o.selected) = []) ∧
    (∀ u ∈ STANDARD_UNITS, u ≠ "" → u ∈ stepCases.map Prod.fst) ∧
    (∀ u, getStepForUnit u = (stepCases.lookup u).getD 0.1) := by
  have hv : (fillUnitSelect unit).map (fun o => o.value) = STANDARD_UNITS := by
    simp [fillUnitSelect, List.map_map, Function.comp_def]
  refine ⟨hv, by simp [fillUnitSelect, STANDARD_UNITS], ?_, ?_, ?_, ?_, ?_,
    getStepForUnit_lookup⟩
  · rw [hv]; exact STANDARD_UNITS_nodup
  · intro o ho
    simp only [fillUnitSelect, List.mem_map] at ho
    obtain ⟨u, _, rfl⟩ := ho
    simp
  · intro h
    have hs := selected_values unit
    rw [if_pos h] at hs
    refine ⟨hs, ?_⟩
    have := congrArg List.length hs
    simpa using this
  · intro h
    have hs := selected_values unit
    rw [if_neg h] at hs
    simpa using hs
  · decide

/-- C6: whenever the mutating request is answered (with any status), updateItem issues
exactly the PUT to "/api/inventory/" followed by encodeURIComponent of oldName as given,
then one GET /api/inventory; deleteItem issues exactly the DELETE to the same form of URL
for its name, then one GET; resetInventory issues exactly the POST to
/api/inventory/reset without a body, then one GET; addItem with a name that is non-empty
after trimming issues its POST, then one GET. -/
theorem mutation_then_one_list (net : Network) (p : Page)
    (oldName newName qty unit name : String) :
    (∀ r, net p.requests (updateItemRequest oldName newName qty unit) = some r →
      issued p (updateItem net oldName newName qty unit p)
        = [updateItemRequest oldName newName qty unit, listRequest]) ∧
    (updateItemRequest oldName newName qty unit).method = "PUT" ∧
    (updateItemRequest oldName newName qty unit).url
      = "/api/inventory/" ++ encodeURIComponent oldName ∧
    (∀ r, net p.requests (deleteItemRequest name) = some r →
      issued p (deleteItem net name p) = [deleteItemRequest name, listRequest]) ∧
    deleteItemRequest name
      = { method := "DELETE", url := "/api/inventory/" ++ encodeURIComponent name,
          headers := [], body := none } ∧
    (∀ r, net p.requests resetRequest = some r →
      issued p (resetInventory net p) = [resetRequest, listRequest]) ∧
    resetRequest
      = { method := "POST", url := "/api/inventory/reset", headers := [], body := none } ∧
    (trim p.newName ≠ "" → ∀ r, net p.requests (addItemRequest p) = some r →
      issued p (addItem net p) = [addItemRequest p, listRequest]) ∧
    listRequest = { method := "GET", url := "/api/inventory", headers := [], body := none }
    := by
  have hurl : ∀ s : String, API ++ "/" ++ s = "/api/inventory/" ++ s := by
    intro s
    apply String.ext
    simp [API, String.data_append]
  refine ⟨?_, rfl, hurl _, ?_, ?_, ?_, rfl, ?_, rfl⟩
  · intro r hr
    apply issued_append
    simp [updateItem, fetch, hr, refresh_requests]
  · intro r hr
    apply issued_append
    simp [deleteItem, fetch, hr, refresh_requests]
  · simp [deleteItemRequest, hurl]
  · intro r hr
    apply issued_append
    simp [resetInventory, fetch, hr, refresh_requests]
  · intro hn r hr
    apply issued_append
    have hn2 : ¬ (addItemPayload p).name = "" := hn
    simp [addItem, hn2, fetch, hr, refresh_requests]

/-- Instance of `mutation_then_one_list` on a page with the new name "Salt", for an
environment that answers every request with status 500 and no parseable body. -/
theorem mutation_then_one_list_witness :
    issued ⟨"Salt", "", 1, "g", [], [], []⟩
        (updateItem (fun _ _ => some ⟨500, none⟩) " Flour" "Rye" "3" "kg"
          ⟨"Salt", "", 1, "g", [], [], []⟩)
      = [updateItemRequest " Flour" "Rye" "3" "kg", listRequest] ∧
    issued ⟨"Salt", "", 1, "g", [], [], []⟩
        (deleteItem (fun _ _ => some ⟨500, none⟩) "Salt" ⟨"Salt", "", 1, "g", [], [], []⟩)
      = [deleteItemRequest "Salt", listRequest] ∧
    issued ⟨"Salt", "", 1, "g", [], [], []⟩
        (resetInventory (fun _ _ => some ⟨500, none⟩) ⟨"Salt", "", 1, "g", [], [], []⟩)
      = [resetRequest, listRequest] ∧
    issued ⟨"Salt", "", 1, "g", [], [], []⟩
        (addItem (fun _ _ => some ⟨500, none⟩) ⟨"Salt", "", 1, "g", [], [], []⟩)
      = [addItemRequest ⟨"Salt", "", 1, "g", [], [], []⟩, listRequest] :=
  have h := mutation_then_one_list (fun _ _ => some ⟨500, none⟩)
    ⟨"Salt", "", 1, "g", [], [], []⟩ " Flour" "Rye" "3" "kg" "Salt"
  ⟨h.1 _ rfl, h.2.2.2.1 _ rfl, h.2.2.2.2.2.1 _ rfl, h.2.2.2.2.2.2.2.1 (by decide) _ rfl⟩

theorem selectValue_fillUnitSelect (unit : String) :
    selectValue (fillUnitSelect unit) = if unit ∈ STANDARD_UNITS then unit else "pcs" := by
  have hs := selected_values unit
  unfold selectValue
  by_cases h : unit ∈ STANDARD_UNITS
  · rw [if_pos h] at hs
    rw [if_pos h]
    cases hf : (fillUnitSelect unit).filter (fun o => o.selected) with
    | nil => rw [hf] at hs; simp at hs
    | cons o t =>
      rw [hf] at hs
      simp only [List.map_cons, List.cons.injEq, List.map_eq_nil_iff] at hs
      obtain ⟨ho, ht⟩ := hs
      rw [ht]
      simp [ho]
  · rw [if_neg h] at hs
    rw [if_neg h]
    have hf : (fillUnitSelect unit).filter (fun o => o.selected) = [] := by
      simpa using hs
    rw [hf]
    rfl

/-- C7 (counterexample): three responses on which the table differs from the claim. For
the members b, 2, 1 (in this order) the rows come in the order 1, 2, b. For the name
made of a, a line feed and b the row shows "ab". For an entry with the unit "bunch" the
selector of the row has no option marked and no option of that value, and shows "pcs",
and Save on that row sends the unit "pcs". -/
theorem refresh_differs_from_claim :
    (refresh (fun _ _ => some ⟨200, some [("b", some ⟨some 1, some "g"⟩),
        ("2", some ⟨some 2, some "g"⟩), ("1", some ⟨some 3, some "g"⟩)]⟩)
      ⟨"", "", 1, "", [], [], []⟩).body.map (fun r => r.key) = ["1", "2", "b"] ∧
    (refresh (fun _ _ => some ⟨200, some [("a\nb", some ⟨some 1, some "g"⟩)]⟩)
      ⟨"", "", 1, "", [], [], []⟩).body.map (fun r => r.nameInp) = ["ab"] ∧
    (refresh (fun _ _ => some ⟨200, some [("Kale", some ⟨some 2, some "bunch"⟩)]⟩)
        ⟨"", "", 1, "", [], [], []⟩).body.map
      (fun r => (r.nameInp, r.qtyInp, r.unitSel.filter (fun o => o.selected),
                 r.unitSel.filter (fun o => o.value = "bunch"), r.unitSelValue))
      = [("Kale", some 2, [], [], "pcs")] ∧
    (issued ⟨"", "", 1, "", [], [], []⟩
        (saveRow (fun _ _ => none) (mkRow "Kale" ⟨some 2, some "bunch"⟩) "Kale" "2"
          (mkRow "Kale" ⟨some 2, some "bunch"⟩).unitSelValue ⟨"", "", 1, "", [], [], []⟩)).map
      (fun r => (r.method, r.url, r.body.map fun b => (b.name, b.unit)))
      = [("PUT", "/api/inventory/Kale", some ("Kale", "pcs"))] := by
  refine ⟨by decide, by decide, by decide, by decide⟩

/-- C7 (amended): when the GET of refresh is answered with a parseable inventory object
none of whose entries is null, the table afterwards holds exactly the rows of the
entries that Object.entries enumerates, in that order, and nothing of its previous
content, so the result depends only on the response and a second refresh with the same
response yields the same table. When the names of the response are distinct this is one
row per entry of the response: first the entries whose names are array indices, in
ascending order of the index, then the other entries in the order of the response; with
no such name the order is the order of the response. Each row shows the name of its
entry without line feeds and carriage returns, its quantity (empty when the quantity is
null or absent) and the quantity step getStepForUnit(unit or ""); its unit selector
shows the unit of the entry (or "" when absent) when that unit is one of the 13
standard units, and "pcs" when it is not; the unit shown is the unit that Save on the
row sends. -/
theorem refresh_rebuilds_table (net : Network) (p : Page) (status : Nat) (ms : Members)
    (h : net p.requests listRequest = some ⟨status, some ms⟩)
    (hitems : ∀ e ∈ ms, e.2 ≠ none) :
    (refresh net p).body.map (fun r => r.key)
      = (Object_entries (JSON_parse ms)).map (fun e => e.1) ∧
    (refresh net p).body.map (fun r => r.nameInp)
      = (Object_entries (JSON_parse ms)).map (fun e => textInputValue e.1) ∧
    (refresh net p).body.map (fun r => r.qtyInp)
      = (Object_entries (JSON_parse ms)).map (fun e => e.2.bind fun i => i.quantity) ∧
    (refresh net p).body.map (fun r => r.qtyStep)
      = (Object_entries (JSON_parse ms)).map
          (fun e => getStepForUnit ((e.2.bind fun i => i.unit).getD "")) ∧
    (refresh net p).body.map (fun r => r.unitSel)
      = (Object_entries (JSON_parse ms)).map
          (fun e => fillUnitSelect ((e.2.bind fun i => i.unit).getD "")) ∧
    (refresh net p).body.map (fun r => r.unitSelValue)
      = (Object_entries (JSON_parse ms)).map
          (fun e => if (e.2.bind fun i => i.unit).getD "" ∈ STANDARD_UNITS
                    then (e.2.bind fun i => i.unit).getD "" else "pcs") ∧
    (∀ r ∈ (refresh net p).body, ∀ (net2 : Network) (nameText qtyText : String) (q : Page),
      ∃ req rest, issued q (saveRow net2 r nameText qtyText r.unitSelValue q) = req :: rest ∧
        req.method = "PUT" ∧ req.body.map (fun b => b.unit) = some r.unitSelValue) ∧
    ((ms.map fun e => e.1).Nodup →
      (Object_entries (JSON_parse ms)).Perm ms ∧
      (refresh net p).body.length = ms.length ∧
      Object_entries (JSON_parse ms)
        = (ms.filter fun e => (arrayIndex e.1).isSome).insertionSort
            (fun a b => indexOf a ≤ indexOf b)
          ++ ms.filter (fun e => !(arrayIndex e.1).isSome) ∧
      ((ms.filter fun e => (arrayIndex e.1).isSome).insertionSort
          (fun a b => indexOf a ≤ indexOf b)).Pairwise (fun a b => indexOf a ≤ indexOf b) ∧
      ((∀ e ∈ ms, arrayIndex e.1 = none) →
        (refresh net p).body.map (fun r => r.key) = ms.map (fun e => e.1))) ∧
    (∀ (q : Page) (status2 : Nat), net q.requests listRequest = some ⟨status2, some ms⟩ →
      (refresh net q).body = (refresh net p).body) ∧
    (∀ status2 : Nat,
      net (refresh net p).requests listRequest = some ⟨status2, some ms⟩ →
      (refresh net (refresh net p)).body = (refresh net p).body) := by
  have hb := refresh_body net p status ms h hitems
  have hunit : ∀ e : String × Option InventoryItem,
      (e.2.getD ⟨none, none⟩).unit = e.2.bind fun i => i.unit := by
    intro e; cases e.2 <;> rfl
  have hqty : ∀ e : String × Option InventoryItem,
      (e.2.getD ⟨none, none⟩).quantity = e.2.bind fun i => i.quantity := by
    intro e; cases e.2 <;> rfl
  refine ⟨?_, ?_, ?_, ?_, ?_, ?_, ?_, ?_, ?_, ?_⟩
  · rw [hb]; simp [List.map_map, Function.comp_def, mkRow]
  · rw [hb]; simp [List.map_map, Function.comp_def, mkRow]
  · rw [hb]; simp [List.map_map, Function.comp_def, mkRow, hqty]
  · rw [hb]; simp [List.map_map, Function.comp_def, mkRow, strOr_empty, hunit]
  · rw [hb]; simp [List.map_map, Function.comp_def, mkRow, strOr_empty, hunit]
  · rw [hb, List.map_map]
    apply List.map_congr_left
    intro e _
    simp only [Function.comp, mkRow, strOr_empty, hunit]
    exact selectValue_fillUnitSelect _
  · intro r _ net2 nameText qtyText q
    obtain ⟨rest, hr⟩ := updateItem_issued_head net2 r.key (textInputValue nameText)
      (numberInputValue qtyText) r.unitSelValue q
    exact ⟨_, rest, hr, rfl, by simp [updateItemRequest, JSON_stringify, updateItemPayload,
      strOr_empty]⟩
  · intro hnd
    have hp := JSON_parse_nodup ms hnd
    refine ⟨?_, ?_, ?_, ?_, ?_⟩
    · rw [hp]; exact Object_entries_perm ms
    · rw [hb, List.length_map, hp]; exact (Object_entries_perm ms).length_eq
    · rw [hp]; rfl
    · exact Object_entries_sorted ms
    · intro hno
      rw [hb, hp, Object_entries_no_index ms hno]
      simp [List.map_map, Function.comp_def, mkRow]
  · intro q s2 hq
    rw [hb, refresh_body net q s2 ms hq hitems]
  · intro s2 hq
    rw [refresh_body net _ s2 ms hq hitems, hb]

/-- Instance of `refresh_rebuilds_table`: a table that held one stale row is refreshed
with the entries Flour, 7 and Salt; the rows are those of 7, Flour and Salt, and the
selector of the row of 7, whose unit is "bunch", shows "pcs". -/
theorem refresh_rebuilds_table_witness :
    (refresh (fun _ _ => some ⟨200, some [("Flour", some ⟨some 2, some "kg"⟩),
          ("7", some ⟨some 1, some "bunch"⟩), ("Salt", some ⟨none, none⟩)]⟩)
        ⟨"", "", 1, "", [mkRow "Old" ⟨some 1, some "g"⟩], [], []⟩).body.map
      (fun r => r.key) = ["7", "Flour", "Salt"] ∧
    (refresh (fun _ _ => some ⟨200, some [("Flour", some ⟨some 2, some "kg"⟩),
          ("7", some ⟨some 1, some "bunch"⟩), ("Salt", some ⟨none, none⟩)]⟩)
        ⟨"", "", 1, "", [mkRow "Old" ⟨some 1, some "g"⟩], [], []⟩).body.map
      (fun r => r.unitSelValue) = ["pcs", "kg", ""] :=
  have h := refresh_rebuilds_table
    (fun _ _ => some ⟨200, some [("Flour", some ⟨some 2, some "kg"⟩),
      ("7", some ⟨some 1, some "bunch"⟩), ("Salt", some ⟨none, none⟩)]⟩)
    ⟨"", "", 1, "", [mkRow "Old" ⟨some 1, some "g"⟩], [], []⟩ 200
    [("Flour", some ⟨some 2, some "kg"⟩), ("7", some ⟨some 1, some "bunch"⟩),
      ("Salt", some ⟨none, none⟩)] rfl (by decide)
  ⟨h.1.trans (by decide), h.2.2.2.2.2.1.trans (by decide)⟩

/-- C8: against the server of the REST contract, for every inventory that contains
oldName, every newName whose trimmed form is non-empty and differs from oldName, every
non-empty raw quantity q whose numeric value Number(q) is a finite number r, and every
unit u, after updateItem(oldName, newName, q, u) the inventory that the following GET
lists, and from which the table is rendered, no longer contains oldName, maps the
trimmed newName to quantity r and unit u, and agrees with the inventory before on every
other name. -/
theorem updateItem_renames_entry (inv0 : Inventory) (p : Page)
    (oldName newName q u : String) (r : ℚ)
    (hold : (getKey (serverRun inv0 p.requests) oldName).isSome = true)
    (hnew : trim newName ≠ "") (hne : trim newName ≠ oldName)
    (hq : q ≠ "") (hnum : Number q = JSNumber.finite r) :
    (∃ listed : Inventory,
      issued p (updateItem (serverNet inv0) oldName newName q u p)
        = [updateItemRequest oldName newName q u, listRequest] ∧
      serverNet inv0 (p.requests ++ [updateItemRequest oldName newName q u]) listRequest
        = some ⟨200, some (listed.map fun e => (e.1, some e.2))⟩ ∧
      (updateItem (serverNet inv0) oldName newName q u p).body
        = (Object_entries (JSON_parse (listed.map fun e => (e.1, some e.2)))).map
            (fun e => mkRow e.1 (e.2.getD ⟨none, none⟩)) ∧
      getKey listed oldName = none ∧
      getKey listed (trim newName) = some ⟨some r, some u⟩ ∧
      (∀ k, k ≠ oldName → k ≠ trim newName →
        getKey listed k = getKey (serverRun inv0 p.requests) k)) := by
  have hstep := serverStep_update (serverRun inv0 p.requests) oldName newName q u r hold hnew
    hq hnum
  have hresp : serverNet inv0 (p.requests ++ [updateItemRequest oldName newName q u])
      listRequest
      = some ⟨200, some ((setKey (trim newName) ⟨some r, some u⟩
          (eraseKey oldName (serverRun inv0 p.requests))).map fun e => (e.1, some e.2))⟩ := by
    have hrun : serverRun inv0 (p.requests ++ [updateItemRequest oldName newName q u])
        = setKey (trim newName) ⟨some r, some u⟩
            (eraseKey oldName (serverRun inv0 p.requests)) := by
      rw [serverRun_append]
      exact hstep
    show some (serverStep (serverRun inv0
      (p.requests ++ [updateItemRequest oldName newName q u])) listRequest).2 = _
    rw [hrun, serverStep_list]
  have hput : serverNet inv0 p.requests (updateItemRequest oldName newName q u)
      = some (serverStep (serverRun inv0 p.requests)
          (updateItemRequest oldName newName q u)).2 := rfl
  refine ⟨_, ?_, hresp, ?_, ?_, ?_, ?_⟩
  · apply issued_append
    simp [updateItem, fetch, hput, refresh_requests]
  · simp only [updateItem, fetch, hput]
    refine refresh_body _ _ 200 _ hresp ?_
    intro e he
    simp only [List.mem_map] at he
    obtain ⟨x, _, rfl⟩ := he
    simp
  · rw [getKey_setKey_ne _ _ _ _ (Ne.symm hne), getKey_eraseKey_self]
  · exact getKey_setKey_self _ _ _
  · intro k h1 h2
    rw [getKey_setKey_ne _ _ _ _ h2, getKey_eraseKey_ne _ _ _ h1]

/-- Instance of `updateItem_renames_entry`: update("Flour", "Bread Flour", "3", "kg") on
an inventory holding Flour and Salt. -/
theorem updateItem_renames_entry_witness :
    ∃ listed : Inventory,
      issued ⟨"", "", 1, "", [], [], []⟩
          (updateItem (serverNet [("Flour", ⟨some 2, some "kg"⟩), ("Salt", ⟨some 1, some "g"⟩)])
            "Flour" "Bread Flour" "3" "kg" ⟨"", "", 1, "", [], [], []⟩)
        = [updateItemRequest "Flour" "Bread Flour" "3" "kg", listRequest] ∧
      serverNet [("Flour", ⟨some 2, some "kg"⟩), ("Salt", ⟨some 1, some "g"⟩)]
          ([] ++ [updateItemRequest "Flour" "Bread Flour" "3" "kg"]) listRequest
        = some ⟨200, some (listed.map fun e => (e.1, some e.2))⟩ ∧
      (updateItem (serverNet [("Flour", ⟨some 2, some "kg"⟩), ("Salt", ⟨some 1, some "g"⟩)])
          "Flour" "Bread Flour" "3" "kg" ⟨"", "", 1, "", [], [], []⟩).body
        = (Object_entries (JSON_parse (listed.map fun e => (e.1, some e.2)))).map
            (fun e => mkRow e.1 (e.2.getD ⟨none, none⟩)) ∧
      getKey listed "Flour" = none ∧
      getKey listed (trim "Bread Flour") = some ⟨some 3, some "kg"⟩ ∧
      (∀ k, k ≠ "Flour" → k ≠ trim "Bread Flour" →
        getKey listed k
          = getKey (serverRun [("Flour", ⟨some 2, some "kg"⟩), ("Salt", ⟨some 1, some "g"⟩)]
              []) k) :=
  updateItem_renames_entry [("Flour", ⟨some 2, some "kg"⟩), ("Salt", ⟨some 1, some "g"⟩)]
    ⟨"", "", 1, "", [], [], []⟩ "Flour" "Bread Flour" "3" "kg" 3
    (by decide) (by decide) (by decide) (by decide) (by decide!)

end InventoryApp
